import Mathlib

/-!
Shallow embedding of the mexc-sniper bot (src/bot.py, src/main.py).

Conventions of the embedding:
* Python floats that carry prices/quantities are modelled exactly as `Rat`
  (the arithmetic performed by the code — sums, products, divisions of
  decimal inputs — is exact at these magnitudes; no claim here hinges on
  binary rounding).
* A Python function that can raise returns an `Option`; a broad
  `except Exception` that logs and falls through is modelled by the `none`
  branch it produces.
* The venue (exchange) is modelled by a per-attempt script: what the
  `new_order` call returns for that attempt and what the follow-up
  `query_order` call would report.  The cooperative asyncio schedule of a
  wave is modelled by recording, for each task of the wave, whether it was
  already complete when `asyncio.wait(..., return_when=FIRST_COMPLETED)`
  returned (the `done` set) and, for tasks that were still pending and got
  `task.cancel()`-ed, how many of their venue calls had already been issued.
-/

/-- Fields of the venue's order-query response that bot.py reads
(`status`, `executedQty`, `cummulativeQuoteQty` — the misspelling is the
venue's). -/
structure QueryStatus where
  status : String
  executedQty : Rat
  cummulativeQuoteQty : Rat
deriving DecidableEq

/-- Result of the `client.new_order` call of one attempt (bot.py line 76):
the call raised, returned a payload without an `"orderId"` key, or returned
a payload carrying order id `oid`. -/
inductive NewOrderResult where
  | exn
  | noId
  | id (oid : Nat)
deriving DecidableEq

/-- Result of the `client.query_order` call of one attempt (bot.py line 79):
the call raised, or returned the response `s`. -/
inductive QueryOutcome where
  | exn
  | resp (s : QueryStatus)
deriving DecidableEq

/-- The venue-side script of a single order attempt: what its `new_order`
call yields and what its `query_order` call would yield. -/
structure Attempt where
  newOrder : NewOrderResult
  query : QueryOutcome
deriving DecidableEq

/-- A request sent to the venue.  `AsyncMexcClient` (bot.py lines 12-66)
exposes only `new_order` (POST /api/v3/order) and `query_order`
(GET /api/v3/order); a DELETE cancel request is a possible venue request
kind, included here so that claims about cancellation are statable. -/
inductive VenueReq where
  | newOrder
  | queryOrder (oid : Nat)
  | cancelOrder (oid : Nat)
deriving DecidableEq

/-- Whether a venue request is an order-cancellation request. -/
def VenueReq.isCancel : VenueReq → Bool
  | .cancelOrder _ => true
  | _ => false

/-- Average fill price computed by bot.py at lines 81, 172 and 237:
`float(status['cummulativeQuoteQty']) / float(status['executedQty'])`. -/
def avgPrice (s : QueryStatus) : Rat :=
  s.cummulativeQuoteQty / s.executedQty

/-- `try_order` (bot.py lines 74-85): submit, and if the acknowledgment has
an order id, query it; report the query response when it says FILLED,
otherwise fall through to `None`.  Any exception — transport failure in
either call, or the `ZeroDivisionError` the fill-report print at line 81
raises when `executedQty` is zero — is caught by the broad
`except Exception` and also yields `None`. -/
def tryOrderResult (a : Attempt) : Option QueryStatus :=
  match a.newOrder with
  | .exn => none
  | .noId => none
  | .id _ =>
    match a.query with
    | .exn => none
    | .resp s =>
      if s.status = "FILLED" then
        if s.executedQty = 0 then none
        else some s
      else none

/-- The venue requests one attempt issues when it runs to completion:
always the POST, plus the GET when the POST's acknowledgment carried an
order id. -/
def attemptTrace (a : Attempt) : List VenueReq :=
  match a.newOrder with
  | .exn => [.newOrder]
  | .noId => [.newOrder]
  | .id oid => [.newOrder, .queryOrder oid]

/-- One burst (wave) of the racer together with its schedule: `attempts`
are the venue scripts of the `orders_per_burst` tasks created at bot.py
line 87, `done` marks the tasks that were complete when
`asyncio.wait(..., FIRST_COMPLETED)` returned at line 88, and `prog` gives,
for each task, how many of its venue calls had been issued by the time the
still-pending tasks were cancelled at lines 90-91 (only consulted for
pending tasks). -/
structure Wave where
  attempts : List Attempt
  done : List Bool
  prog : List Nat
deriving DecidableEq

/-- The winner scan of bot.py lines 93-97: walk the completed tasks,
return the first truthy result.  Results of tasks outside the `done` set
are never read. -/
def waveResultAux : List Attempt → List Bool → Option QueryStatus
  | a :: as, d :: ds =>
    match (if d then tryOrderResult a else none) with
    | some s => some s
    | none => waveResultAux as ds
  | _, _ => none

/-- Winner reported by one wave. -/
def Wave.result (w : Wave) : Option QueryStatus :=
  waveResultAux w.attempts w.done

/-- Venue requests issued during one wave: completed tasks contribute their
full interaction, cancelled tasks only the prefix they had already
issued. -/
def waveTraceAux : List Attempt → List Bool → List Nat → List VenueReq
  | a :: as, d :: ds, p :: ps =>
    (if d then attemptTrace a else (attemptTrace a).take p) ++ waveTraceAux as ds ps
  | _, _, _ => []

/-- Venue requests issued during one wave. -/
def Wave.trace (w : Wave) : List VenueReq :=
  waveTraceAux w.attempts w.done w.prog

/-- `burst_sniper_optimized` (bot.py lines 69-103), run over the scheduled
waves: run each burst in order; as soon as a wave's winner scan finds a
filled status, return it (line 97); if all bursts pass without one, return
`None` (line 103).  Paired with the racer's result is the full list of
venue requests the run issued. -/
def burst_sniper_optimized : List Wave → Option QueryStatus × List VenueReq
  | [] => (none, [])
  | w :: ws =>
    match w.result with
    | some s => (some s, w.trace)
    | none =>
      let r := burst_sniper_optimized ws
      (r.1, w.trace ++ r.2)

/-- An attempt whose order the venue actually fills: the submission is
acknowledged with an id and the venue's query response reports status
FILLED with a nonzero executed quantity (a genuine fill; cf. the data-model
invariant that a FILLED order has positive executed quantity). -/
def isFilledAttempt (a : Attempt) : Bool :=
  match a.newOrder, a.query with
  | .id _, .resp s => s.status = "FILLED" && s.executedQty ≠ 0
  | _, _ => false

/-- Decidable venue-side invariant for one attempt: whenever the venue
reports an order as FILLED it reports a positive executed quantity. -/
def venueInvariant (a : Attempt) : Bool :=
  match a.query with
  | .exn => true
  | .resp s => !(s.status = "FILLED") || 0 < s.executedQty

/-- Condition under which the fill-report print at bot.py line 81 divides
by zero (raising `ZeroDivisionError`): the attempt reaches the FILLED
branch with `executedQty` equal to zero. -/
def tryOrderHitsDivZero (a : Attempt) : Bool :=
  match a.newOrder, a.query with
  | .id _, .resp s => s.status = "FILLED" && s.executedQty = 0
  | _, _ => false

theorem tryOrder_none_of_not_filled (a : Attempt) (h : isFilledAttempt a = false) :
    tryOrderResult a = none := by
  obtain ⟨n, q⟩ := a
  cases n <;> cases q <;> simp_all [tryOrderResult, isFilledAttempt]

theorem tryOrder_some_of_filled (a : Attempt) (s : QueryStatus)
    (hfill : isFilledAttempt a = true) (hq : a.query = .resp s) :
    tryOrderResult a = some s := by
  obtain ⟨n, q⟩ := a
  cases n <;> cases q <;> simp_all [tryOrderResult, isFilledAttempt]

theorem tryOrder_some_inv (a : Attempt) (s : QueryStatus) (h : tryOrderResult a = some s) :
    a.query = .resp s ∧ s.status = "FILLED" ∧ s.executedQty ≠ 0 := by
  obtain ⟨n, q⟩ := a
  cases n <;> cases q <;> simp_all [tryOrderResult]
  obtain ⟨h1, h2, rfl⟩ := h
  exact ⟨h1, h2⟩

theorem attemptTrace_no_cancel (a : Attempt) : ∀ r ∈ attemptTrace a, r.isCancel = false := by
  obtain ⟨n, q⟩ := a
  cases n <;> simp [attemptTrace, VenueReq.isCancel]

theorem waveTraceAux_no_cancel (as : List Attempt) (ds : List Bool) (ps : List Nat) :
    ∀ r ∈ waveTraceAux as ds ps, r.isCancel = false := by
  induction as generalizing ds ps with
  | nil => cases ds <;> cases ps <;> simp [waveTraceAux]
  | cons a as ih =>
    cases ds with
    | nil => simp [waveTraceAux]
    | cons d ds =>
      cases ps with
      | nil => simp [waveTraceAux]
      | cons p ps =>
        intro r hr
        simp only [waveTraceAux, List.mem_append] at hr
        rcases hr with hr | hr
        · rcases hr' : d with _ | _ <;> simp [hr'] at hr
          · exact attemptTrace_no_cancel a r (List.mem_of_mem_take hr)
          · exact attemptTrace_no_cancel a r hr
        · exact ih ds ps r hr

theorem burst_no_cancel (ws : List Wave) :
    ∀ r ∈ (burst_sniper_optimized ws).2, r.isCancel = false := by
  induction ws with
  | nil => simp [burst_sniper_optimized]
  | cons w ws ih =>
    intro r hr
    simp only [burst_sniper_optimized] at hr
    rcases hres : w.result with _ | s <;> simp [hres] at hr
    · rcases hr with hr | hr
      · exact waveTraceAux_no_cancel _ _ _ r hr
      · exact ih r hr
    · exact waveTraceAux_no_cancel _ _ _ r hr

theorem waveResultAux_none (as : List Attempt) (ds : List Bool)
    (h : ∀ a ∈ as, isFilledAttempt a = false) : waveResultAux as ds = none := by
  induction as generalizing ds with
  | nil => cases ds <;> rfl
  | cons a as ih =>
    cases ds with
    | nil => rfl
    | cons d ds =>
      have ha := tryOrder_none_of_not_filled a (h a (by simp))
      simp only [waveResultAux, ha, ite_self]
      exact ih ds (fun x hx => h x (by simp [hx]))

theorem waveResultAux_wins (as₁ as₂ : List Attempt) (ds₁ ds₂ : List Bool)
    (a : Attempt) (s : QueryStatus)
    (hlen : ds₁.length = as₁.length)
    (h1 : ∀ x ∈ as₁, isFilledAttempt x = false)
    (hfill : isFilledAttempt a = true) (hq : a.query = .resp s) :
    waveResultAux (as₁ ++ a :: as₂) (ds₁ ++ true :: ds₂) = some s := by
  induction as₁ generalizing ds₁ with
  | nil =>
    cases ds₁ with
    | nil => simp [waveResultAux, tryOrder_some_of_filled a s hfill hq]
    | cons d ds => simp at hlen
  | cons x xs ih =>
    cases ds₁ with
    | nil => simp at hlen
    | cons d ds =>
      have hx := tryOrder_none_of_not_filled x (h1 x (by simp))
      simp only [List.cons_append, waveResultAux, hx, ite_self]
      exact ih ds (by simpa using hlen) (fun y hy => h1 y (by simp [hy]))

theorem waveResultAux_some_inv (as : List Attempt) (ds : List Bool) (s : QueryStatus)
    (h : waveResultAux as ds = some s) : ∃ a ∈ as, tryOrderResult a = some s := by
  induction as generalizing ds with
  | nil => cases ds <;> simp [waveResultAux] at h
  | cons a as ih =>
    cases ds with
    | nil => simp [waveResultAux] at h
    | cons d ds =>
      simp only [waveResultAux] at h
      rcases hd : (if d then tryOrderResult a else none) with _ | t
      · simp [hd] at h
        obtain ⟨x, hx, hres⟩ := ih ds h
        exact ⟨x, by simp [hx], hres⟩
      · simp [hd] at h
        rcases d with _ | _ <;> simp at hd
        exact ⟨a, by simp, by simp [hd, h]⟩

theorem burst_skips_unfilled (pre rest : List Wave)
    (hpre : ∀ w ∈ pre, ∀ a ∈ w.attempts, isFilledAttempt a = false) :
    (burst_sniper_optimized (pre ++ rest)).1 = (burst_sniper_optimized rest).1 := by
  induction pre with
  | nil => rfl
  | cons p ps ih =>
    have hres : p.result = none := waveResultAux_none _ _ (hpre p (by simp))
    simp only [List.cons_append, burst_sniper_optimized, hres]
    exact ih (fun w hw a ha => hpre w (by simp [hw]) a ha)

theorem burst_some_inv (ws : List Wave) (s : QueryStatus)
    (h : (burst_sniper_optimized ws).1 = some s) :
    ∃ w ∈ ws, ∃ a ∈ w.attempts, tryOrderResult a = some s := by
  induction ws with
  | nil => simp [burst_sniper_optimized] at h
  | cons w ws ih =>
    simp only [burst_sniper_optimized] at h
    rcases hres : w.result with _ | t <;> simp [hres] at h
    · obtain ⟨w', hw', hrest⟩ := ih h
      exact ⟨w', by simp [hw'], hrest⟩
    · obtain ⟨a, ha, hres'⟩ := waveResultAux_some_inv _ _ _ (h ▸ hres)
      exact ⟨w, by simp, a, ha, hres'⟩

/-- C1 (counterexample).  One wave of W = 2 attempts (so W ≥ 1, B ≥ 1) in
which the venue fills exactly one order — the second attempt's (order id 7,
FILLED, quantity 1) — while the first attempt's submission is acknowledged
without an order id.  Under the schedule in which the first (fruitless)
task completes first, `asyncio.wait(..., FIRST_COMPLETED)` returns with the
filled attempt still pending, and it is locally cancelled after having
issued only its POST: the racer returns `None`, not the filled order's
status, and the venue request trace contains no cancellation request for
the other obtained order id — both halves of the claim fail. -/
theorem c1_counterexample :
    isFilledAttempt ⟨.id 7, .resp ⟨"FILLED", 1, 5⟩⟩ = true ∧
    isFilledAttempt ⟨.noId, .exn⟩ = false ∧
    burst_sniper_optimized
        [⟨[⟨.noId, .exn⟩, ⟨.id 7, .resp ⟨"FILLED", 1, 5⟩⟩], [true, false], [0, 1]⟩]
      = (none, [.newOrder, .newOrder]) := by
  decide

/-- C1 (amended).  For every number of waves B ≥ 1 and fan-out W ≥ 1 (here:
an arbitrary wave list `pre ++ wave :: post` whose marked wave contains the
marked attempt), if the venue fills exactly one order among all submissions
and the filled attempt's task is in the completed set when its wave's
`asyncio.wait(..., FIRST_COMPLETED)` returns, then `burst_sniper_optimized`
returns that filled order's query status; and it never issues any
cancellation request to the venue — losing order ids are not cancelled at
the venue (only still-pending local asyncio tasks are cancelled). -/
theorem c1_unique_done_fill_wins (pre post : List Wave)
    (as₁ as₂ : List Attempt) (ds₁ ds₂ : List Bool) (prog : List Nat)
    (a : Attempt) (s : QueryStatus)
    (hlen : ds₁.length = as₁.length)
    (hfill : isFilledAttempt a = true) (hq : a.query = .resp s)
    (hsib : ∀ x ∈ as₁ ++ as₂, isFilledAttempt x = false)
    (hpre : ∀ w ∈ pre, ∀ x ∈ w.attempts, isFilledAttempt x = false)
    (hpost : ∀ w ∈ post, ∀ x ∈ w.attempts, isFilledAttempt x = false) :
    (burst_sniper_optimized
        (pre ++ (⟨as₁ ++ a :: as₂, ds₁ ++ true :: ds₂, prog⟩ : Wave) :: post)).1 = some s ∧
    ∀ r ∈ (burst_sniper_optimized
        (pre ++ (⟨as₁ ++ a :: as₂, ds₁ ++ true :: ds₂, prog⟩ : Wave) :: post)).2,
      r.isCancel = false := by
  refine ⟨?_, burst_no_cancel _⟩
  rw [burst_skips_unfilled pre _ hpre]
  have hw : (⟨as₁ ++ a :: as₂, ds₁ ++ true :: ds₂, prog⟩ : Wave).result = some s :=
    waveResultAux_wins as₁ as₂ ds₁ ds₂ a s hlen
      (fun x hx => hsib x (List.mem_append_left _ hx)) hfill hq
  simp [burst_sniper_optimized, hw]

/-- C1 (witness): one wave of two completed attempts, the second filled. -/
theorem c1_witness :
    (burst_sniper_optimized
        [⟨[⟨.noId, .exn⟩, ⟨.id 7, .resp ⟨"FILLED", 1, 5⟩⟩], [true, true], [0, 0]⟩]).1
      = some ⟨"FILLED", 1, 5⟩ :=
  (c1_unique_done_fill_wins [] [] [⟨.noId, .exn⟩] [] [true] [] [0, 0]
    ⟨.id 7, .resp ⟨"FILLED", 1, 5⟩⟩ ⟨"FILLED", 1, 5⟩
    rfl (by decide) rfl (by decide) (by simp) (by simp)).1

/-- C2 (counterexample).  A wave of W = 2 attempts: the first attempt's
submission raises (a transport failure) and its task — reporting `None` —
is the first to complete, while the second attempt, whose order the venue
fills (order id 9, FILLED, quantity 2), is still pending.  The racer's
`task.cancel()` of the pending siblings aborts the filling attempt before
it issues any venue call, and the burst returns `None`: the failure of one
attempt did cancel its sibling, and the sibling that would fill did not
produce a winning order. -/
theorem c2_counterexample :
    (⟨.exn, .exn⟩ : Attempt).newOrder = .exn ∧
    isFilledAttempt ⟨.id 9, .resp ⟨"FILLED", 2, 10⟩⟩ = true ∧
    burst_sniper_optimized
        [⟨[⟨.exn, .exn⟩, ⟨.id 9, .resp ⟨"FILLED", 2, 10⟩⟩], [true, false], [0, 0]⟩]
      = (none, [.newOrder]) := by
  decide

/-- C2 (amended).  Within a single wave, the exception of a failing attempt
is contained in that attempt: its task completes normally with `None`
rather than propagating the error, and a sibling attempt that the venue
fills still produces the wave's winning order provided the sibling's task
is also in the completed set when `asyncio.wait(..., FIRST_COMPLETED)`
returns (a failing attempt that completes first causes the still-pending
siblings to be locally cancelled, so the proviso is not redundant). -/
theorem c2_error_contained_done_sibling_wins (as₁ as₂ : List Attempt)
    (ds₁ ds₂ : List Bool) (aerr afill : Attempt) (s : QueryStatus)
    (hlen : ds₁.length = as₁.length)
    (herr : aerr ∈ as₁ ++ afill :: as₂) (herrb : aerr.newOrder = .exn)
    (hfill : isFilledAttempt afill = true) (hq : afill.query = .resp s)
    (hsib : ∀ x ∈ as₁ ++ as₂, isFilledAttempt x = false) :
    tryOrderResult aerr = none ∧
    waveResultAux (as₁ ++ afill :: as₂) (ds₁ ++ true :: ds₂) = some s := by
  constructor
  · unfold tryOrderResult
    rw [herrb]
  · exact waveResultAux_wins as₁ as₂ ds₁ ds₂ afill s hlen
      (fun x hx => hsib x (List.mem_append_left _ hx)) hfill hq

/-- C2 (witness): the first attempt of the wave raises, both tasks are
completed, the second attempt's fill wins the wave. -/
theorem c2_witness :
    tryOrderResult ⟨.exn, .exn⟩ = none ∧
    waveResultAux [⟨.exn, .exn⟩, ⟨.id 9, .resp ⟨"FILLED", 2, 10⟩⟩] [true, true]
      = some ⟨"FILLED", 2, 10⟩ := by
  have h := c2_error_contained_done_sibling_wins [⟨.exn, .exn⟩] [] [true] []
    ⟨.exn, .exn⟩ ⟨.id 9, .resp ⟨"FILLED", 2, 10⟩⟩ ⟨"FILLED", 2, 10⟩
    rfl (by simp) rfl (by decide) rfl (by decide)
  exact h

/-- C3 (counterexample).  A transport failure (the submission call raises)
and a successfully submitted but unfilled order (status CANCELED) are two
different attempt outcomes, yet `try_order` maps both to the very same
result value `None`: the racer cannot distinguish "request failed" from
"order not filled". -/
theorem c3_counterexample :
    tryOrderResult ⟨.exn, .exn⟩ = none ∧
    tryOrderResult ⟨.id 3, .resp ⟨"CANCELED", 1, 1⟩⟩ = none ∧
    (⟨.exn, .exn⟩ : Attempt) ≠ ⟨.id 3, .resp ⟨"CANCELED", 1, 1⟩⟩ := by
  decide

/-- C3 (amended).  For every single order attempt, a transport failure in
the submit call, a transport failure in the query call, and a successfully
submitted but unfilled order are all mapped by `try_order` to the same
result value `None`: the broad `except Exception` block logs the error and
falls through to the shared `return None`, so no distinct error kind
reaches the racer. -/
theorem c3_transport_error_conflated_with_no_fill :
    (∀ a : Attempt, a.newOrder = .exn → tryOrderResult a = none) ∧
    (∀ a : Attempt, a.query = .exn → tryOrderResult a = none) ∧
    (∀ (a : Attempt) (s : QueryStatus), a.query = .resp s → s.status ≠ "FILLED" →
      tryOrderResult a = none) := by
  refine ⟨?_, ?_, ?_⟩
  · intro a h
    unfold tryOrderResult
    rw [h]
  · intro a h
    obtain ⟨n, q⟩ := a
    cases n <;> simp_all [tryOrderResult]
  · intro a s h hs
    obtain ⟨n, q⟩ := a
    cases n <;> simp_all [tryOrderResult]

/-- C3 (witness): a raising submission and an unfilled (NEW) order both
evaluate to `None`. -/
theorem c3_witness :
    tryOrderResult ⟨.exn, .exn⟩ = none ∧
    tryOrderResult ⟨.id 2, .resp ⟨"NEW", 0, 0⟩⟩ = none :=
  ⟨c3_transport_error_conflated_with_no_fill.1 ⟨.exn, .exn⟩ rfl,
   c3_transport_error_conflated_with_no_fill.2.2 ⟨.id 2, .resp ⟨"NEW", 0, 0⟩⟩
     ⟨"NEW", 0, 0⟩ rfl (by decide)⟩

/-- C9 (confirmed).  If the venue fills none of the orders of any wave, the
racer finishes all bursts, returns `None` as an ordinary value (the model
is a total function — the broad per-attempt exception handler means no
error propagates out of `burst_sniper_optimized`), and its venue request
trace contains no cancellation request. -/
theorem c9_no_fill_returns_none (ws : List Wave)
    (h : ∀ w ∈ ws, ∀ a ∈ w.attempts, isFilledAttempt a = false) :
    (burst_sniper_optimized ws).1 = none ∧
    ∀ r ∈ (burst_sniper_optimized ws).2, r.isCancel = false := by
  refine ⟨?_, burst_no_cancel ws⟩
  have := burst_skips_unfilled ws [] h
  simpa [burst_sniper_optimized] using this

/-- C9 (witness): two waves, no fill anywhere. -/
theorem c9_witness :
    (burst_sniper_optimized
        [⟨[⟨.noId, .exn⟩], [true], [0]⟩,
         ⟨[⟨.id 4, .resp ⟨"NEW", 0, 0⟩⟩], [true], [0]⟩]).1 = none :=
  (c9_no_fill_returns_none _ (by decide)).1

/-- C10 (confirmed).  Under the venue invariant that a FILLED query
response carries a positive executed quantity, (a) no attempt of any wave
reaches the division-by-zero branch of the fill report at bot.py line 81,
and (b) any status the racer returns has positive executed quantity, so
the post-race accounting `cost / executed_qty` of `snipe_listing`
(bot.py line 237, `avgPrice` here) divides by a nonzero quantity. -/
theorem c10_filled_division_well_defined (ws : List Wave)
    (hinv : ∀ w ∈ ws, ∀ a ∈ w.attempts, venueInvariant a = true) :
    (∀ w ∈ ws, ∀ a ∈ w.attempts, tryOrderHitsDivZero a = false) ∧
    (∀ s, (burst_sniper_optimized ws).1 = some s →
      0 < s.executedQty ∧ avgPrice s = s.cummulativeQuoteQty / s.executedQty) := by
  constructor
  · intro w hw a ha
    have := hinv w hw a ha
    obtain ⟨n, q⟩ := a
    cases n <;> cases q <;> simp_all [venueInvariant, tryOrderHitsDivZero]
    intro h
    simp [h] at this
    exact ne_of_gt this
  · intro s hs
    obtain ⟨w, hw, a, ha, hres⟩ := burst_some_inv ws s hs
    obtain ⟨hq, hst, _⟩ := tryOrder_some_inv a s hres
    have := hinv w hw a ha
    rw [venueInvariant, hq] at this
    simp [hst] at this
    exact ⟨this, rfl⟩

/-- C10 (witness): a single wave whose one attempt fills with quantity 2;
the returned status has positive executed quantity. -/
theorem c10_witness :
    (0 : Rat) < (⟨"FILLED", 2, 10⟩ : QueryStatus).executedQty :=
  ((c10_filled_division_well_defined
      [⟨[⟨.id 1, .resp ⟨"FILLED", 2, 10⟩⟩], [true], [0]⟩] (by decide)).2
    ⟨"FILLED", 2, 10⟩ (by decide)).1

/-- One iteration's price fetch in `monitor_take_profit` (bot.py lines
163-164): either a successfully parsed price or an exception. -/
inductive Tick where
  | price (p : Rat)
  | fetchErr
deriving DecidableEq

/-- The environment of the sell that `monitor_take_profit` issues when the
target is hit (bot.py lines 168-172): the result of `sell_token` (an order
id, or `None` when the sell failed and was logged), and the outcome of the
follow-up `query_order` on that sell. -/
structure SellEnv where
  sellOrder : Option Nat
  postQuery : QueryOutcome
deriving DecidableEq

/-- Observable outcome of a `monitor_take_profit` run over a finite list of
price readings: the quantities of the sell orders it issued, how many
readings it consumed, whether the `while True` loop terminated within those
readings, and the sell price it reported after settlement (if any). -/
structure MonitorResult where
  sells : List Rat
  consumed : Nat
  ended : Bool
  soldAt : Option Rat
deriving DecidableEq

/-- Take-profit target computed at bot.py line 159:
`buy_price * (1 + take_profit_pct / 100)`. -/
def target_price (buyPrice pct : Rat) : Rat :=
  buyPrice * (1 + pct / 100)

/-- Post-sell settlement report of bot.py lines 169-177: nothing is
reported when `sell_token` returned `None` (its own exception was logged)
or when the settlement query raises, and a zero `executedQty` makes the
sell-price division raise `ZeroDivisionError`, caught at line 180. -/
def settleReport (env : SellEnv) : Option Rat :=
  match env.sellOrder with
  | none => none
  | some _ =>
    match env.postQuery with
    | .exn => none
    | .resp st => if st.executedQty = 0 then none else some (avgPrice st)

/-- `monitor_take_profit` (bot.py lines 156-182) run over a list of price
readings: each loop iteration fetches a price; if the fetch raises, the
`except` block logs the error and `break`s out of the loop (lines 180-182);
if the price has reached the target, a market sell for the full held
quantity is issued once and the loop ends (lines 166-178); otherwise the
loop sleeps and polls the next reading (line 179).  An empty remainder
means the modelled readings ran out with the loop still watching. -/
def monitor_take_profit (buyPrice pct qty : Rat) (env : SellEnv) : List Tick → MonitorResult
  | [] => ⟨[], 0, false, none⟩
  | .fetchErr :: _ => ⟨[], 1, true, none⟩
  | .price p :: rest =>
    if target_price buyPrice pct ≤ p then ⟨[qty], 1, true, settleReport env⟩
    else
      let r := monitor_take_profit buyPrice pct qty env rest
      ⟨r.sells, r.consumed + 1, r.ended, r.soldAt⟩

theorem monitor_sells_at_first_trigger (buyPrice pct qty : Rat) (env : SellEnv)
    (ps₁ ps₂ : List Rat) (ptrig : Rat)
    (hlow : ∀ p ∈ ps₁, p < target_price buyPrice pct)
    (htrig : target_price buyPrice pct ≤ ptrig) :
    monitor_take_profit buyPrice pct qty env ((ps₁ ++ ptrig :: ps₂).map .price)
      = ⟨[qty], ps₁.length + 1, true, settleReport env⟩ := by
  induction ps₁ with
  | nil => simp [monitor_take_profit, htrig]
  | cons p ps ih =>
    have hp : ¬ target_price buyPrice pct ≤ p := not_le.mpr (hlow p (by simp))
    have ih' := ih (fun x hx => hlow x (by simp [hx]))
    simp only [List.cons_append, List.map_cons, List.append_eq, monitor_take_profit,
      if_neg hp, List.length_cons]
    rw [ih']

/-- C4 (confirmed).  The monitor's target equals
`basePrice * (1 + percent/100)`; over any sequence of successfully polled
prices it issues its single sell of the full held quantity exactly at the
first reading that is ≥ the target and never earlier; and in the concrete
scenario basePrice = 1.00, percent = 5 the target is 1.05 and the price
sequence [0.98, 1.00, 1.04, 1.06] triggers the sell on the 4th reading. -/
theorem c4_monitor_triggers_at_first_crossing (buyPrice pct qty : Rat) (env : SellEnv)
    (ps₁ ps₂ : List Rat) (ptrig : Rat)
    (hlow : ∀ p ∈ ps₁, p < target_price buyPrice pct)
    (htrig : target_price buyPrice pct ≤ ptrig) :
    target_price buyPrice pct = buyPrice * (1 + pct / 100) ∧
    monitor_take_profit buyPrice pct qty env ((ps₁ ++ ptrig :: ps₂).map .price)
      = ⟨[qty], ps₁.length + 1, true, settleReport env⟩ ∧
    target_price 1 5 = 21 / 20 ∧
    monitor_take_profit 1 5 qty env
        [.price (49/50), .price 1, .price (26/25), .price (53/50)]
      = ⟨[qty], 4, true, settleReport env⟩ := by
  refine ⟨rfl, monitor_sells_at_first_trigger _ _ _ _ _ _ _ hlow htrig, by norm_num [target_price], ?_⟩
  have h := monitor_sells_at_first_trigger 1 5 qty env [49/50, 1, 26/25] [] (53/50)
    (by intro p hp; fin_cases hp <;> norm_num [target_price])
    (by norm_num [target_price])
  simpa using h

/-- C4 (witness): the scenario itself, with held quantity 7 and a
successful settlement environment. -/
theorem c4_witness :
    monitor_take_profit 1 5 7 ⟨some 21, .resp ⟨"FILLED", 7, 742/100⟩⟩
        [.price (49/50), .price 1, .price (26/25), .price (53/50)]
      = ⟨[7], 4, true, some (106/100)⟩ := by
  have h := (c4_monitor_triggers_at_first_crossing 1 5 7
    ⟨some 21, .resp ⟨"FILLED", 7, 742/100⟩⟩ [49/50, 1, 26/25] [] (53/50)
    (by intro p hp; fin_cases hp <;> norm_num [target_price])
    (by norm_num [target_price])).2.2.2
  rw [h]
  norm_num [settleReport, avgPrice]

/-- C5 (counterexample).  A single transient price-fetch error terminates
monitoring at once: with basePrice 1, percent 5, quantity 2, the reading
sequence [fetch error, price 2.00] — whose second reading is well above the
1.05 target — makes the monitor consume only the failed reading, issue no
sell, and leave the loop; it does not continue polling as the claim
states. -/
theorem c5_counterexample :
    monitor_take_profit 1 5 2 ⟨some 11, .resp ⟨"FILLED", 2, 21/5⟩⟩ [.fetchErr, .price 2]
      = ⟨[], 1, true, none⟩ ∧
    target_price 1 5 ≤ 2 :=
  ⟨rfl, by norm_num [target_price]⟩

/-- C5 (amended).  In the WATCHING phase a single transient price-fetch
error logs the error and immediately terminates monitoring: the broad
`except` block at bot.py lines 180-182 ends the polling loop with a
`break`, whatever readings (including ones at or above the target) would
have followed; there is no consecutive-error budget and no further
polling. -/
theorem c5_single_fetch_error_stops_monitor (buyPrice pct qty : Rat) (env : SellEnv)
    (rest : List Tick) :
    monitor_take_profit buyPrice pct qty env (.fetchErr :: rest) = ⟨[], 1, true, none⟩ :=
  rfl

/-- Threshold of the deadline wait in `snipe_listing` (bot.py line 215):
the loop spins until the clock reaches
`target_time - timedelta(milliseconds=300)`. -/
def armThreshold (target : Rat) : Rat := target - 3/10

/-- The deadline-wait loop of bot.py lines 215-216,
`while datetime.now(timezone.utc) < threshold: time.sleep(0.05)`, modelled
over the clock trace `times` (the successive `datetime.now` readings of the
loop's iterations): the loop returns at its first reading that has reached
the threshold.  The existence hypothesis says some reading reaches the
threshold (with real time and a positive sleep increment this always
holds). -/
def waitReturnIdx (times : Nat → Rat) (threshold : Rat)
    (h : ∃ i, threshold ≤ times i) : Nat :=
  Nat.find h

/-- C6 (confirmed).  For every requested timestamp (threshold) and clock
trace whose consecutive readings advance by at most the `time.sleep(0.05)`
polling granularity: the wait never returns before the clock has reached
the requested timestamp, every earlier reading was still short of it, if
the wait had to wait at all it returns within one polling granularity
(0.05 s) after the timestamp, and if the timestamp is already in the past
at the first reading it returns immediately (zero sleeps). -/
theorem c6_wait_returns_on_time (times : Nat → Rat) (threshold : Rat)
    (h : ∃ i, threshold ≤ times i)
    (hgap : ∀ i, times (i + 1) ≤ times i + 1/20) :
    threshold ≤ times (waitReturnIdx times threshold h) ∧
    (∀ j < waitReturnIdx times threshold h, times j < threshold) ∧
    (times 0 < threshold → times (waitReturnIdx times threshold h) < threshold + 1/20) ∧
    (threshold ≤ times 0 → waitReturnIdx times threshold h = 0) := by
  refine ⟨Nat.find_spec h, ?_, ?_, ?_⟩
  · intro j hj
    exact not_le.mp (Nat.find_min h hj)
  · intro h0
    have hk0 : waitReturnIdx times threshold h ≠ 0 := by
      intro heq
      have hs := Nat.find_spec h
      unfold waitReturnIdx at heq
      rw [heq] at hs
      exact absurd hs (not_le.mpr h0)
    obtain ⟨m, hm⟩ := Nat.exists_eq_succ_of_ne_zero hk0
    unfold waitReturnIdx at hm ⊢
    have h1 : times m < threshold := not_le.mp (Nat.find_min h (by omega))
    have h2 := hgap m
    rw [hm]
    calc times (m + 1) ≤ times m + 1/20 := h2
      _ < threshold + 1/20 := by linarith
  · intro h0
    exact (Nat.find_eq_zero h).mpr h0

/-- Clock trace used by the C6 witness: a reading every 0.05 s. -/
def clockTrace (i : Nat) : Rat := i / 20

theorem clockTrace_reaches : ∃ i, (3:Rat)/20 ≤ clockTrace i :=
  ⟨3, by norm_num [clockTrace]⟩

/-- C6 (witness): with readings every 0.05 s and requested timestamp
0.15 s, the wait returns with the clock at or past the timestamp. -/
theorem c6_witness :
    (3:Rat)/20 ≤ clockTrace (waitReturnIdx clockTrace (3/20) clockTrace_reaches) :=
  (c6_wait_returns_on_time clockTrace (3/20) clockTrace_reaches
    (by intro i; simp only [clockTrace]; push_cast; linarith)).1

/-- Start times of the racer's waves (bot.py lines 71-100): each entry of
`ws` is a wave paired with the wall-clock duration its fan-out takes (from
`create_task` at line 87 until the results of `asyncio.wait` have been
scanned).  A wave launches at the running clock `t`; when it reports no
fill the loop sleeps `delay_between_bursts` (line 100) and the next wave
launches at `t + duration + delay`; after a fill no further wave
launches. -/
def burstLaunchTimes : List (Wave × Rat) → Rat → Rat → List Rat
  | [], _, _ => []
  | (w, d) :: ws, t, delay =>
    t :: (match w.result with
          | some _ => []
          | none => burstLaunchTimes ws (t + d + delay) delay)

theorem burstLaunchTimes_lower : ∀ (ws : List (Wave × Rat)) (t0 delay : Rat),
    (∀ p ∈ ws, 0 ≤ p.2) → 0 ≤ delay →
    ∀ t ∈ burstLaunchTimes ws t0 delay, t0 ≤ t
  | [], _, _, _, _ => by simp [burstLaunchTimes]
  | (w, d) :: ps, t0, delay, hd, hdelay => by
    intro t ht
    simp only [burstLaunchTimes] at ht
    rcases hres : w.result with _ | s <;> rw [hres] at ht <;> simp at ht
    · rcases ht with rfl | ht
      · exact le_refl t
      · have h0 : 0 ≤ d := hd (w, d) (by simp)
        have hrec := burstLaunchTimes_lower ps (t0 + d + delay) delay
          (fun q hq => hd q (by simp [hq])) hdelay t ht
        linarith
    · rw [ht]

theorem burstLaunchTimes_length : ∀ (ws : List (Wave × Rat)) (t0 delay : Rat),
    (∀ p ∈ ws, (p.1).result = none) →
    (burstLaunchTimes ws t0 delay).length = ws.length
  | [], _, _, _ => rfl
  | (w, d) :: ps, t0, delay, hnf => by
    have hres : w.result = none := hnf (w, d) (by simp)
    simp only [burstLaunchTimes, hres, List.length_cons]
    rw [burstLaunchTimes_length ps (t0 + d + delay) delay
      (fun q hq => hnf q (by simp [hq]))]

/-- C7 (counterexample).  Race window armTime = 0, expireTime = 1 (so
armTime ≤ expireTime).  The racer's first wave obtains no fill and its
fan-out takes 1.9 s; with the 0.1 s inter-burst sleep the second wave's
fresh submission attempts are launched at t = 2, at-or-after the
expireTime of 1: the racer launches new submission attempts past any
expireTime, because the burst loop has no expiry check at all. -/
theorem c7_counterexample :
    ((0:Rat) ≤ 1) ∧
    burstLaunchTimes
        [((⟨[⟨.noId, .exn⟩], [true], [0]⟩ : Wave), 19/10),
         ((⟨[⟨.noId, .exn⟩], [true], [0]⟩ : Wave), 1/10)]
        0 (1/10) = [0, 2] ∧
    ¬ (∀ t ∈ burstLaunchTimes
        [((⟨[⟨.noId, .exn⟩], [true], [0]⟩ : Wave), 19/10),
         ((⟨[⟨.noId, .exn⟩], [true], [0]⟩ : Wave), 1/10)]
        0 (1/10), t < 1) := by
  have hres : (⟨[⟨.noId, .exn⟩], [true], [0]⟩ : Wave).result = none := rfl
  have hls : burstLaunchTimes
      [((⟨[⟨.noId, .exn⟩], [true], [0]⟩ : Wave), 19/10),
       ((⟨[⟨.noId, .exn⟩], [true], [0]⟩ : Wave), 1/10)]
      0 (1/10) = [0, 2] := by
    simp only [burstLaunchTimes, hres]
    norm_num
  refine ⟨by norm_num, hls, ?_⟩
  intro hall
  have := hall 2 (by rw [hls]; simp)
  norm_num at this

/-- C7 (amended).  The racer never submits an order before armTime — the
deadline wait releases `snipe_listing` only once the clock has reached the
arming threshold `target_time - 300 ms`, and every wave (hence every
submission) launches at or after that moment; but the racer enforces no
expireTime: it launches new submission attempts for exactly as many waves
as are configured (stopping early only on a fill), however much wall-clock
time has elapsed, and in-flight attempts are simply left to the schedule.
The code has no expiry check. -/
theorem c7_arm_respected_no_expiry_check (target : Rat) (times : Nat → Rat)
    (h : ∃ i, armThreshold target ≤ times i)
    (ws : List (Wave × Rat)) (delay : Rat)
    (hd : ∀ p ∈ ws, 0 ≤ p.2) (hdelay : 0 ≤ delay) :
    (∀ t ∈ burstLaunchTimes ws
        (times (waitReturnIdx times (armThreshold target) h)) delay,
      armThreshold target ≤ t) ∧
    ((∀ p ∈ ws, (p.1).result = none) →
      (burstLaunchTimes ws
        (times (waitReturnIdx times (armThreshold target) h)) delay).length
        = ws.length) := by
  constructor
  · intro t ht
    have harm : armThreshold target ≤ times (waitReturnIdx times (armThreshold target) h) :=
      Nat.find_spec h
    have := burstLaunchTimes_lower ws _ delay hd hdelay t ht
    linarith
  · intro hnf
    exact burstLaunchTimes_length ws _ delay hnf

/-- Clock trace used by the C7 witness. -/
def clockTrace7 (i : Nat) : Rat := i

theorem clockTrace7_reaches : ∃ i, armThreshold (13/10) ≤ clockTrace7 i :=
  ⟨1, by norm_num [clockTrace7, armThreshold]⟩

/-- C7 (witness): one no-fill wave of duration 0.2 s followed by a second
wave; launches start at or after the arming threshold 1.0 and both waves
launch. -/
theorem c7_witness :
    (∀ t ∈ burstLaunchTimes
        [((⟨[⟨.noId, .exn⟩], [true], [0]⟩ : Wave), 1/5),
         ((⟨[⟨.noId, .exn⟩], [true], [0]⟩ : Wave), 1/5)]
        (clockTrace7 (waitReturnIdx clockTrace7 (armThreshold (13/10)) clockTrace7_reaches))
        (1/10),
      armThreshold (13/10) ≤ t) ∧
    (burstLaunchTimes
        [((⟨[⟨.noId, .exn⟩], [true], [0]⟩ : Wave), 1/5),
         ((⟨[⟨.noId, .exn⟩], [true], [0]⟩ : Wave), 1/5)]
        (clockTrace7 (waitReturnIdx clockTrace7 (armThreshold (13/10)) clockTrace7_reaches))
        (1/10)).length = 2 := by
  have h := c7_arm_respected_no_expiry_check (13/10) clockTrace7 clockTrace7_reaches
    [((⟨[⟨.noId, .exn⟩], [true], [0]⟩ : Wave), 1/5),
     ((⟨[⟨.noId, .exn⟩], [true], [0]⟩ : Wave), 1/5)] (1/10)
    (by intro p hp; fin_cases hp <;> norm_num) (by norm_num)
  exact ⟨h.1, h.2 (by intro p hp; fin_cases hp <;> rfl)⟩

/-- A primitive Python parameter value as used in the request parameter
dictionaries of `AsyncMexcClient` (string keys to primitive values). -/
inductive PValue where
  | str (s : String)
  | int (n : Int)
deriving DecidableEq

/-- How Python's f-string `f"{k}={v}"` renders the value: a string renders
as itself, an integer via its decimal representation. -/
def PValue.pyStr : PValue → String
  | .str s => s
  | .int n => toString n

/-- Insertion of one key/value pair into a key-sorted list.  Python's
`sorted(params.items())` orders dict items by their `(key, value)` tuples;
since dict keys are unique the order is determined by the keys alone, so
the comparison here inspects only keys. -/
def insertByKey (x : String × PValue) : List (String × PValue) → List (String × PValue)
  | [] => [x]
  | y :: ys => if x.1 ≤ y.1 then x :: y :: ys else y :: insertByKey x ys

/-- `sorted(params.items())` of bot.py line 19: the parameter pairs in
ascending key order. -/
def sortByKey : List (String × PValue) → List (String × PValue)
  | [] => []
  | x :: xs => insertByKey x (sortByKey xs)

/-- One `f"{k}={v}"` fragment of bot.py line 19. -/
def renderParam (kv : String × PValue) : String :=
  kv.1 ++ "=" ++ kv.2.pyStr

/-- Python's `'&'.join(...)` of bot.py line 19. -/
def ampJoin : List String → String
  | [] => ""
  | [x] => x
  | x :: y :: ys => x ++ "&" ++ ampJoin (y :: ys)

/-- The serialized query string the signature is computed over
(bot.py line 19): `key=value` pairs joined by `&`, keys sorted ascending. -/
def queryString (params : List (String × PValue)) : String :=
  ampJoin ((sortByKey params).map renderParam)

/-- Truncation to a 32-bit word. -/
def w32 (x : Nat) : Nat := x % 4294967296

/-- 32-bit right rotation. -/
def rotr32 (n x : Nat) : Nat := w32 ((x >>> n) ||| (x <<< (32 - n)))

def bigSigma0 (x : Nat) : Nat := rotr32 2 x ^^^ rotr32 13 x ^^^ rotr32 22 x

def bigSigma1 (x : Nat) : Nat := rotr32 6 x ^^^ rotr32 11 x ^^^ rotr32 25 x

def smallSigma0 (x : Nat) : Nat := rotr32 7 x ^^^ rotr32 18 x ^^^ (x >>> 3)

def smallSigma1 (x : Nat) : Nat := rotr32 17 x ^^^ rotr32 19 x ^^^ (x >>> 10)

def chWord (x y z : Nat) : Nat := (x &&& y) ^^^ ((4294967295 ^^^ x) &&& z)

def majWord (x y z : Nat) : Nat := (x &&& y) ^^^ (x &&& z) ^^^ (y &&& z)

/-- The 64 SHA-256 round constants (FIPS 180-4). -/
def K256 : List Nat := [
  1116352408, 1899447441, 3049323471, 3921009573, 961987163, 1508970993,
  2453635748, 2870763221, 3624381080, 310598401, 607225278, 1426881987,
  1925078388, 2162078206, 2614888103, 3248222580, 3835390401, 4022224774,
  264347078, 604807628, 770255983, 1249150122, 1555081692, 1996064986,
  2554220882, 2821834349, 2952996808, 3210313671, 3336571891, 3584528711,
  113926993, 338241895, 666307205, 773529912, 1294757372, 1396182291,
  1695183700, 1986661051, 2177026350, 2456956037, 2730485921, 2820302411,
  3259730800, 3345764771, 3516065817, 3600352804, 4094571909, 275423344,
  430227734, 506948616, 659060556, 883997877, 958139571, 1322822218,
  1537002063, 1747873779, 1955562222, 2024104815, 2227730452, 2361852424,
  2428436474, 2756734187, 3204031479, 3329325298]

/-- The SHA-256 initial hash value (FIPS 180-4). -/
def H256init : List Nat :=
  [1779033703, 3144134277, 1013904242, 2773480762,
   1359893119, 2600822924, 528734635, 1541459225]

/-- `k`-byte big-endian representation of `n`. -/
def beBytes : Nat → Nat → List Nat
  | 0, _ => []
  | k + 1, n => beBytes k (n / 256) ++ [n % 256]

/-- Big-endian 32-bit words from a byte list (length a multiple of 4). -/
def bytesToWords : List Nat → List Nat
  | b0 :: b1 :: b2 :: b3 :: rest =>
    (((b0 * 256 + b1) * 256 + b2) * 256 + b3) :: bytesToWords rest
  | _ => []

/-- Split a word list into 16-word blocks. -/
def chunk16 : List Nat → List (List Nat)
  | w0 :: w1 :: w2 :: w3 :: w4 :: w5 :: w6 :: w7 ::
    w8 :: w9 :: w10 :: w11 :: w12 :: w13 :: w14 :: w15 :: rest =>
    [w0, w1, w2, w3, w4, w5, w6, w7, w8, w9, w10, w11, w12, w13, w14, w15] :: chunk16 rest
  | _ => []

/-- SHA-256 message padding: append `0x80`, zero bytes, and the 64-bit
big-endian bit length, to a multiple of 64 bytes. -/
def sha256pad (m : List Nat) : List Nat :=
  m ++ 0x80 :: List.replicate ((119 - m.length % 64) % 64) 0 ++ beBytes 8 (8 * m.length)

/-- Extend a 16-word block by one message-schedule word. -/
def scheduleStep (acc : List Nat) : List Nat :=
  acc ++ [w32 (smallSigma1 (acc.getD (acc.length - 2) 0) + acc.getD (acc.length - 7) 0 +
    smallSigma0 (acc.getD (acc.length - 15) 0) + acc.getD (acc.length - 16) 0)]

/-- The full 64-word message schedule of one block. -/
def buildSchedule (ws : List Nat) : List Nat :=
  (List.range 48).foldl (fun acc _ => scheduleStep acc) ws

/-- One SHA-256 compression round on the working variables. -/
def compressStep (st : List Nat) (kw : Nat × Nat) : List Nat :=
  match st with
  | [a, b, c, d, e, f, g, h] =>
    let t1 := w32 (h + bigSigma1 e + chWord e f g + kw.1 + kw.2)
    let t2 := w32 (bigSigma0 a + majWord a b c)
    [w32 (t1 + t2), a, b, c, w32 (d + t1), e, f, g]
  | other => other

/-- SHA-256 compression of one 16-word block into the running hash. -/
def compressBlock (hs : List Nat) (block : List Nat) : List Nat :=
  let st := (List.zip K256 (buildSchedule block)).foldl compressStep hs
  (List.zip hs st).map (fun p => w32 (p.1 + p.2))

/-- SHA-256 of a byte list (bytes in, 32 bytes out), per FIPS 180-4 —
the `hashlib.sha256` primitive used at bot.py line 23. -/
def sha256 (msg : List Nat) : List Nat :=
  ((chunk16 (bytesToWords (sha256pad msg))).foldl compressBlock H256init).flatMap (beBytes 4)

/-- HMAC-SHA256 (RFC 2104) — the `hmac.new(key, msg, hashlib.sha256)`
primitive used at bot.py lines 20-24: pad or hash the key to the 64-byte
block size, then nest two SHA-256 passes over the xored pads. -/
def hmacSha256 (key msg : List Nat) : List Nat :=
  let k0 := if 64 < key.length then sha256 key ++ List.replicate 32 0
            else key ++ List.replicate (64 - key.length) 0
  sha256 ((k0.map (fun b => b ^^^ 0x5c)) ++ sha256 ((k0.map (fun b => b ^^^ 0x36)) ++ msg))

/-- Lowercase hexadecimal digit. -/
def hexDigit (n : Nat) : Char :=
  if n < 10 then Char.ofNat (48 + n) else Char.ofNat (87 + n)

/-- Two lowercase hex digits of one byte. -/
def byteHex (b : Nat) : String :=
  String.mk [hexDigit (b / 16), hexDigit (b % 16)]

/-- Lowercase hexadecimal rendering of a byte list — `.hexdigest()` of
bot.py line 24. -/
def toHexStr (bs : List Nat) : String :=
  String.join (bs.map byteHex)

/-- UTF-8 encoding of one character (code point to bytes). -/
def utf8Char (c : Char) : List Nat :=
  let n := c.toNat
  if n < 0x80 then [n]
  else if n < 0x800 then [0xc0 + n / 64, 0x80 + n % 64]
  else if n < 0x10000 then [0xe0 + n / 4096, 0x80 + (n / 64) % 64, 0x80 + n % 64]
  else [0xf0 + n / 262144, 0x80 + (n / 4096) % 64, 0x80 + (n / 64) % 64, 0x80 + n % 64]

/-- UTF-8 bytes of a string — `.encode('utf-8')` of bot.py lines 21-22. -/
def utf8 (s : String) : List Nat :=
  s.data.flatMap utf8Char

/-- `AsyncMexcClient._sign` (bot.py lines 18-24): the lowercase-hex
HMAC-SHA256, keyed by the UTF-8 bytes of the API secret, of the UTF-8
bytes of the sorted `key=value` query string. -/
def _sign (secret : String) (params : List (String × PValue)) : String :=
  toHexStr (hmacSha256 (utf8 secret) (utf8 (queryString params)))

/-- The parameter dictionary assembled by `new_order` (bot.py lines 31-38)
before the signature is attached, in insertion order. -/
def new_order_base (symbol side otype : String) (quoteOrderQty : PValue) (ts : Int) :
    List (String × PValue) :=
  [("symbol", .str symbol), ("side", .str side), ("type", .str otype),
   ("quoteOrderQty", quoteOrderQty), ("timestamp", .int ts), ("recvWindow", .int 5000)]

/-- The full `new_order` parameter list (bot.py line 39): the signature —
computed over all the other parameters — is inserted last into the dict,
and Python dicts preserve insertion order, so it is the last parameter of
the request. -/
def new_order_params (symbol side otype : String) (quoteOrderQty : PValue) (ts : Int)
    (secret : String) : List (String × PValue) :=
  new_order_base symbol side otype quoteOrderQty ts ++
    [("signature", .str (_sign secret (new_order_base symbol side otype quoteOrderQty ts)))]

/-- The parameter dictionary assembled by `query_order` (bot.py lines
53-58) before the signature is attached. -/
def query_order_base (symbol : String) (orderId : PValue) (ts : Int) :
    List (String × PValue) :=
  [("symbol", .str symbol), ("orderId", orderId), ("timestamp", .int ts),
   ("recvWindow", .int 5000)]

/-- The full `query_order` parameter list (bot.py line 59), signature
last. -/
def query_order_params (symbol : String) (orderId : PValue) (ts : Int)
    (secret : String) : List (String × PValue) :=
  query_order_base symbol orderId ts ++
    [("signature", .str (_sign secret (query_order_base symbol orderId ts)))]

theorem insertByKey_perm (x : String × PValue) (l : List (String × PValue)) :
    (insertByKey x l).Perm (x :: l) := by
  induction l with
  | nil => exact List.Perm.refl _
  | cons y ys ih =>
    rw [insertByKey]
    split
    · exact List.Perm.refl _
    · exact (ih.cons y).trans (List.Perm.swap x y ys)

theorem mem_insertByKey {b x : String × PValue} {l : List (String × PValue)}
    (h : b ∈ insertByKey x l) : b = x ∨ b ∈ l := by
  have := (insertByKey_perm x l).mem_iff.mp h
  simpa using this

theorem sortByKey_perm (l : List (String × PValue)) : (sortByKey l).Perm l := by
  induction l with
  | nil => exact List.Perm.refl _
  | cons x xs ih => exact (insertByKey_perm x (sortByKey xs)).trans (ih.cons x)

theorem insertByKey_sorted (x : String × PValue) (l : List (String × PValue))
    (hl : l.Sorted (fun a b => a.1 ≤ b.1)) :
    (insertByKey x l).Sorted (fun a b => a.1 ≤ b.1) := by
  induction l with
  | nil => simp [insertByKey]
  | cons y ys ih =>
    rw [List.sorted_cons] at hl
    obtain ⟨hy, hys⟩ := hl
    rw [insertByKey]
    split
    · rename_i hxy
      rw [List.sorted_cons]
      refine ⟨?_, ?_⟩
      · intro b hb
        rcases List.mem_cons.mp hb with rfl | hb
        · exact hxy
        · exact le_trans hxy (hy b hb)
      · rw [List.sorted_cons]
        exact ⟨hy, hys⟩
    · rename_i hxy
      have hyx : y.1 ≤ x.1 := le_of_not_le hxy
      rw [List.sorted_cons]
      refine ⟨?_, ih hys⟩
      intro b hb
      rcases mem_insertByKey hb with rfl | hb
      · exact hyx
      · exact hy b hb

theorem sortByKey_sorted (l : List (String × PValue)) :
    (sortByKey l).Sorted (fun a b => a.1 ≤ b.1) := by
  induction l with
  | nil => simp [sortByKey]
  | cons x xs ih => exact insertByKey_sorted x _ ih

theorem sortByKey_sorted_lt (l : List (String × PValue))
    (hnd : (l.map Prod.fst).Nodup) :
    (sortByKey l).Sorted (fun a b => a.1 < b.1) := by
  have h1 := sortByKey_sorted l
  have hnd' : ((sortByKey l).map Prod.fst).Nodup :=
    ((sortByKey_perm l).map Prod.fst).nodup_iff.mpr hnd
  have hpair : (sortByKey l).Pairwise (fun a b => a.1 ≠ b.1) :=
    List.pairwise_map.mp hnd'
  exact (h1.and hpair).imp (fun h => lt_of_le_of_ne h.1 h.2)

theorem sortByKey_eq_of_perm (p q : List (String × PValue)) (hperm : p.Perm q)
    (hnd : (p.map Prod.fst).Nodup) : sortByKey p = sortByKey q := by
  haveI : IsAntisymm (String × PValue) (fun a b => a.1 < b.1) :=
    ⟨fun a b h1 h2 => (lt_asymm h1 h2).elim⟩
  have hq : (q.map Prod.fst).Nodup := ((hperm.map Prod.fst).nodup_iff).mp hnd
  exact List.eq_of_perm_of_sorted
    (((sortByKey_perm p).trans hperm).trans (sortByKey_perm q).symm)
    (sortByKey_sorted_lt p hnd) (sortByKey_sorted_lt q hq)

theorem insertByKey_congr {R : (String × PValue) → (String × PValue) → Prop}
    (hkey : ∀ a b, R a b → a.1 = b.1)
    (x y : String × PValue) (hxy : R x y) :
    ∀ {l l' : List (String × PValue)}, List.Forall₂ R l l' →
      List.Forall₂ R (insertByKey x l) (insertByKey y l') := by
  intro l l' h
  induction h with
  | nil => exact .cons hxy .nil
  | cons hab htail ih =>
    rename_i a b as bs
    rw [insertByKey, insertByKey]
    by_cases hc : x.1 ≤ a.1
    · rw [if_pos hc, if_pos (by rw [← hkey x y hxy, ← hkey a b hab]; exact hc)]
      exact .cons hxy (.cons hab htail)
    · rw [if_neg hc, if_neg (by rw [← hkey x y hxy, ← hkey a b hab]; exact hc)]
      exact .cons hab ih

theorem sortByKey_congr {R : (String × PValue) → (String × PValue) → Prop}
    (hkey : ∀ a b, R a b → a.1 = b.1) :
    ∀ {l l' : List (String × PValue)}, List.Forall₂ R l l' →
      List.Forall₂ R (sortByKey l) (sortByKey l') := by
  intro l l' h
  induction h with
  | nil => exact .nil
  | cons hab htail ih =>
    rw [sortByKey, sortByKey]
    exact insertByKey_congr hkey _ _ hab ih

theorem renderParam_congr :
    ∀ {l l' : List (String × PValue)},
      List.Forall₂ (fun a b => a.1 = b.1 ∧ a.2.pyStr = b.2.pyStr) l l' →
      l.map renderParam = l'.map renderParam := by
  intro l l' h
  induction h with
  | nil => rfl
  | cons hab htail ih =>
    simp only [List.map_cons, ih]
    rw [renderParam, renderParam, hab.1, hab.2]

theorem queryString_congr {l l' : List (String × PValue)}
    (h : List.Forall₂ (fun a b => a.1 = b.1 ∧ a.2.pyStr = b.2.pyStr) l l') :
    queryString l = queryString l' := by
  rw [queryString, queryString,
    renderParam_congr (sortByKey_congr (fun a b hab => hab.1) h)]

theorem forall2_self {R : (String × PValue) → (String × PValue) → Prop}
    (l : List (String × PValue)) (h : ∀ a ∈ l, R a a) : List.Forall₂ R l l := by
  induction l with
  | nil => exact .nil
  | cons a as ih => exact .cons (h a (by simp)) (ih (fun x hx => h x (by simp [hx])))

/-- Positionwise relation between two parameter lists that agree on keys
and whose entries are identical except that the single pair `(k, v)` may be
replaced by `(k, v')`. -/
def AgreeOne (k : String) (v v' : PValue) (a b : String × PValue) : Prop :=
  a.1 = b.1 ∧ (a = b ∨ (a = (k, v) ∧ b = (k, v')))

theorem agreeOne_eq_of_not_mem (k : String) (v v' : PValue) :
    ∀ {l l' : List (String × PValue)},
      List.Forall₂ (AgreeOne k v v') l l' → k ∉ l.map Prod.fst → l = l' := by
  intro l l' h
  induction h with
  | nil => intro _; rfl
  | cons hab htail ih =>
    rename_i a b as bs
    intro hk
    simp only [List.map_cons, List.mem_cons] at hk
    push_neg at hk
    rcases hab.2 with rfl | ⟨ha, hb⟩
    · rw [ih hk.2]
    · exact absurd (by rw [ha] : a.1 = k).symm hk.1

theorem agreeOne_decompose (k : String) (v v' : PValue) :
    ∀ {l l' : List (String × PValue)},
      List.Forall₂ (AgreeOne k v v') l l' → (l.map Prod.fst).Nodup →
      l = l' ∨ ∃ m₁ m₂, l = m₁ ++ (k, v) :: m₂ ∧ l' = m₁ ++ (k, v') :: m₂ := by
  intro l l' h
  induction h with
  | nil => intro _; exact Or.inl rfl
  | cons hab htail ih =>
    rename_i a b as bs
    intro hnd
    rw [List.map_cons, List.nodup_cons] at hnd
    rcases hab.2 with rfl | ⟨ha, hb⟩
    · rcases ih hnd.2 with rfl | ⟨m₁, m₂, h1, h2⟩
      · exact Or.inl rfl
      · exact Or.inr ⟨a :: m₁, m₂, by rw [h1, List.cons_append], by rw [h2, List.cons_append]⟩
    · subst ha
      subst hb
      have hbs : as = bs := agreeOne_eq_of_not_mem k v v' htail (by simpa using hnd.1)
      exact Or.inr ⟨[], as, rfl, by rw [hbs]; rfl⟩

theorem string_append_cancel_right {a b c : String} (h : a ++ c = b ++ c) : a = b := by
  apply String.ext
  have h2 := congrArg String.data h
  rw [String.data_append, String.data_append] at h2
  exact List.append_cancel_right h2

theorem string_append_cancel_left {a b c : String} (h : a ++ b = a ++ c) : b = c := by
  apply String.ext
  have h2 := congrArg String.data h
  rw [String.data_append, String.data_append] at h2
  exact List.append_cancel_left h2

theorem ampJoin_cons_ne_nil (x : String) (l : List String) (hl : l ≠ []) :
    ampJoin (x :: l) = x ++ "&" ++ ampJoin l := by
  cases l with
  | nil => exact absurd rfl hl
  | cons y ys => rfl

theorem renderParam_inj_val {k : String} {v v' : PValue}
    (h : renderParam (k, v) = renderParam (k, v')) : v.pyStr = v'.pyStr := by
  rw [renderParam, renderParam] at h
  exact string_append_cancel_left h

theorem ampJoin_middle_ne (m₁ m₂ : List (String × PValue)) (k : String) (v v' : PValue)
    (hne : v.pyStr ≠ v'.pyStr) :
    ampJoin ((m₁ ++ (k, v) :: m₂).map renderParam)
      ≠ ampJoin ((m₁ ++ (k, v') :: m₂).map renderParam) := by
  induction m₁ with
  | nil =>
    cases m₂ with
    | nil =>
      intro h
      simp only [List.nil_append, List.map_cons, List.map_nil] at h
      exact hne (renderParam_inj_val (h : ampJoin [renderParam (k, v)] = _))
    | cons y ys =>
      intro h
      simp only [List.nil_append, List.map_cons] at h
      rw [ampJoin_cons_ne_nil (renderParam (k, v))
            (renderParam y :: List.map renderParam ys) (by simp),
          ampJoin_cons_ne_nil (renderParam (k, v'))
            (renderParam y :: List.map renderParam ys) (by simp)] at h
      have h2 := string_append_cancel_right h
      exact hne (renderParam_inj_val (string_append_cancel_right h2))
  | cons a m₁ ih =>
    intro h
    simp only [List.cons_append, List.map_cons] at h
    rw [ampJoin_cons_ne_nil (renderParam a)
          (List.map renderParam (m₁ ++ (k, v) :: m₂)) (by simp),
        ampJoin_cons_ne_nil (renderParam a)
          (List.map renderParam (m₁ ++ (k, v') :: m₂)) (by simp)] at h
    exact ih (string_append_cancel_left h)

theorem key_not_elsewhere {l₁ l₂ : List (String × PValue)} {k : String} {v : PValue}
    (hnd : ((l₁ ++ (k, v) :: l₂).map Prod.fst).Nodup) :
    k ∉ l₁.map Prod.fst ∧ k ∉ l₂.map Prod.fst := by
  rw [List.map_append, List.map_cons, List.nodup_append] at hnd
  obtain ⟨h1, h2, h3⟩ := hnd
  rw [List.nodup_cons] at h2
  exact ⟨fun hk => h3 hk (by simp), h2.1⟩

theorem queryString_single_change_iff (l₁ l₂ : List (String × PValue)) (k : String)
    (v v' : PValue) (hnd : ((l₁ ++ (k, v) :: l₂).map Prod.fst).Nodup) :
    (queryString (l₁ ++ (k, v) :: l₂) = queryString (l₁ ++ (k, v') :: l₂))
      ↔ v.pyStr = v'.pyStr := by
  constructor
  · intro h
    by_contra hne
    have hvv : v ≠ v' := fun he => hne (by rw [he])
    have hF : List.Forall₂ (AgreeOne k v v') (l₁ ++ (k, v) :: l₂) (l₁ ++ (k, v') :: l₂) :=
      List.rel_append (forall2_self l₁ (fun a _ => ⟨rfl, Or.inl rfl⟩))
        (List.Forall₂.cons ⟨rfl, Or.inr ⟨rfl, rfl⟩⟩
          (forall2_self l₂ (fun a _ => ⟨rfl, Or.inl rfl⟩)))
    have hFs := sortByKey_congr (fun a b hab => hab.1) hF
    have hnds : ((sortByKey (l₁ ++ (k, v) :: l₂)).map Prod.fst).Nodup :=
      ((sortByKey_perm _).map Prod.fst).nodup_iff.mpr hnd
    rcases agreeOne_decompose k v v' hFs hnds with heq | ⟨m₁, m₂, h1, h2⟩
    · have hmem : (k, v) ∈ sortByKey (l₁ ++ (k, v) :: l₂) :=
        (sortByKey_perm _).mem_iff.mpr (by simp)
      rw [heq] at hmem
      have hmem2 : (k, v) ∈ l₁ ++ (k, v') :: l₂ := (sortByKey_perm _).mem_iff.mp hmem
      obtain ⟨hk1, hk2⟩ := key_not_elsewhere hnd
      rcases List.mem_append.mp hmem2 with hin | hin
      · exact hk1 (List.mem_map.mpr ⟨(k, v), hin, rfl⟩)
      · rcases List.mem_cons.mp hin with heq2 | hin
        · exact hvv (congrArg Prod.snd heq2)
        · exact hk2 (List.mem_map.mpr ⟨(k, v), hin, rfl⟩)
    · rw [queryString, queryString, h1, h2] at h
      exact ampJoin_middle_ne m₁ m₂ k v v' hne h
  · intro h
    exact queryString_congr
      (List.rel_append (forall2_self l₁ (fun a _ => ⟨rfl, rfl⟩))
        (List.Forall₂.cons ⟨rfl, h⟩ (forall2_self l₂ (fun a _ => ⟨rfl, rfl⟩))))

/-- C8 (counterexample).  Changing the single parameter value of key "a"
from the integer 5 to the string "5" is a genuine change of the parameter
mapping (the two primitive values are distinct), yet Python's f-string
renders both as `a=5`, so the signer hashes the identical query string and
returns the identical signature: changing a single parameter value does
not always change the signature. -/
theorem c8_counterexample :
    PValue.int 5 ≠ PValue.str "5" ∧
    _sign "secret" [("a", PValue.int 5)] = _sign "secret" [("a", PValue.str "5")] := by
  constructor
  · decide
  · have h : queryString [("a", PValue.int 5)] = queryString [("a", PValue.str "5")] := rfl
    rw [_sign, _sign, h]

/-- C8 (amended).  The signer is the deterministic lowercase-hex
HMAC-SHA256 of the UTF-8 `key=value` serialization joined by `&` with keys
sorted ascending: (i) it depends only on the parameter mapping — any
reordering (permutation) of the pairs of a mapping with distinct keys
yields the identical signature; (ii) changing any single parameter value
changes the serialized query string over which the HMAC is computed if and
only if the value's Python string rendering changes (a value change that
renders identically, such as `5` vs `"5"`, leaves the signature unchanged);
(iii) in both `new_order` and `query_order` the signature is the last
parameter of the request and is computed over exactly the other parameters
("signature" is not among their keys). -/
theorem c8_signer_deterministic_sorted_signature_last (secret : String)
    (p q : List (String × PValue)) (hperm : p.Perm q) (hnd : (p.map Prod.fst).Nodup)
    (l₁ l₂ : List (String × PValue)) (k : String) (v v' : PValue)
    (hnd2 : ((l₁ ++ (k, v) :: l₂).map Prod.fst).Nodup)
    (symbol side otype : String) (qq oid : PValue) (ts : Int) :
    _sign secret p = _sign secret q ∧
    (queryString (l₁ ++ (k, v) :: l₂) = queryString (l₁ ++ (k, v') :: l₂) ↔
      v.pyStr = v'.pyStr) ∧
    (new_order_params symbol side otype qq ts secret).getLast? =
      some ("signature", .str (_sign secret (new_order_base symbol side otype qq ts))) ∧
    "signature" ∉ (new_order_base symbol side otype qq ts).map Prod.fst ∧
    (query_order_params symbol oid ts secret).getLast? =
      some ("signature", .str (_sign secret (query_order_base symbol oid ts))) ∧
    "signature" ∉ (query_order_base symbol oid ts).map Prod.fst := by
  refine ⟨?_, queryString_single_change_iff l₁ l₂ k v v' hnd2, ?_, ?_, ?_, ?_⟩
  · rw [_sign, _sign, queryString, queryString, sortByKey_eq_of_perm p q hperm hnd]
  · rw [new_order_params]
    simp
  · simp [new_order_base]
  · rw [query_order_params]
    simp
  · simp [query_order_base]

/-- C8 (witness): a two-key mapping given in either insertion order signs
identically, and for a singleton mapping the single-change criterion is
available at the concrete values 7 and 8. -/
theorem c8_witness :
    _sign "k" [("b", PValue.int 2), ("a", PValue.str "x")]
      = _sign "k" [("a", PValue.str "x"), ("b", PValue.int 2)] ∧
    (queryString [("a", PValue.int 7)] = queryString [("a", PValue.int 8)] ↔
      (PValue.int 7).pyStr = (PValue.int 8).pyStr) := by
  have h := c8_signer_deterministic_sorted_signature_last "k"
    [("b", PValue.int 2), ("a", PValue.str "x")] [("a", PValue.str "x"), ("b", PValue.int 2)]
    (List.Perm.swap _ _ _) (by decide) [] [] "a" (PValue.int 7) (PValue.int 8) (by decide)
    "BTCUSDT" "BUY" "MARKET" (PValue.int 1) (PValue.int 3) 0
  exact ⟨h.1, h.2.1⟩
